import Mathlib

/-!
Verification of the area-weighted aggregator of `scripts/aggregate_presentation`.

The script aggregates a scalar indicator `cs_ish` carried by source polygons
onto presentation polygons.  The spatial overlay is an external collaborator
(assumed correct), so the embedding starts from its output: a list of
intersection records, each carrying the presentation unit id, the source
unit's scalar value (possibly null), the intersected area and the owning
presentation unit's total area.  Scalar values and areas are modelled as
rationals; `Option` models null / NaN values.
-/

/-- A source polygon: `cobacia` identifier and the `cs_ish` scalar
(`none` models a null value), as selected by the script before the overlay. -/
structure SourceUnit where
  cobacia : Nat
  cs_ish : Option ℚ
deriving DecidableEq

/-- A presentation polygon: identifier (`id_field` value) and its planar
area `area_apresent_km2`. -/
structure PresUnit where
  pid : Nat
  area_total : ℚ
deriving DecidableEq

/-- One row of the overlay output: presentation id, the source unit's
scalar value, the intersected area `area_inter_km2` and the presentation
unit's `area_apresent_km2` carried through the overlay. -/
structure InterRecord where
  pid : Nat
  cs_ish : Option ℚ
  area_inter : ℚ
  area_total : ℚ
deriving DecidableEq

/-- The supported aggregation names, `("mean", "median", "max", "min")`. -/
def SUPPORTED_AGGS : List String := ["mean", "median", "max", "min"]

/-- Lines 115-116 of the script: if `"all"` appears anywhere in the requested
aggregations, the whole request is replaced by `SUPPORTED_AGGS`. -/
def normalizeAggs (aggs : List String) : List String :=
  if "all" ∈ aggs then SUPPORTED_AGGS else aggs

/-- The rows of one `groupby(id_field)` group: records of the given
presentation unit. -/
def groupRecords (pid : Nat) (inter : List InterRecord) : List InterRecord :=
  inter.filter (fun r => r.pid == pid)

/-- Line 203: `inter["cs_ish"].fillna(0) * (inter["area_inter_km2"] / inter["area_apresent_km2"])`. -/
def weightedCol (r : InterRecord) : ℚ :=
  (r.cs_ish.getD 0) * (r.area_inter / r.area_total)

/-- Lines 202-206: the groupby sum of the `weighted` column that the left
join delivers for one presentation unit (`none` when the unit has no
intersection records).  Because the `cs_ish_mean` column was pre-created at
line 184, the line 206 merge collides and this value lands in the output
column `cs_ish_mean_y`, not in `cs_ish_mean` (see `mergeAggCol`). -/
def meanAgg (pid : Nat) (inter : List InterRecord) : Option ℚ :=
  let g := groupRecords pid inter
  if g.isEmpty then none
  else some ((g.map weightedCol).sum)

/-- Ascending insertion of a (value, weight) pair, keyed on the value;
building block of the value sort performed by `np.argsort(values)`. -/
def insertPair (x : ℚ × ℚ) : List (ℚ × ℚ) → List (ℚ × ℚ)
  | [] => [x]
  | y :: ys => if x.1 ≤ y.1 then x :: y :: ys else y :: insertPair x ys

/-- Sort (value, weight) pairs by value ascending (`np.argsort` applied to
values and weights alike; ties carry equal values, so the tie order cannot
affect the value the median returns). -/
def sortPairs (l : List (ℚ × ℚ)) : List (ℚ × ℚ) :=
  l.foldr insertPair []

/-- Ascending insertion of a plain value. -/
def insertVal (x : ℚ) : List ℚ → List ℚ
  | [] => [x]
  | y :: ys => if x ≤ y then x :: y :: ys else y :: insertVal x ys

/-- Ascending sort of plain values, used by the unweighted median. -/
def sortVals (l : List ℚ) : List ℚ :=
  l.foldr insertVal []

/-- Running sums of a list (`np.cumsum`). -/
def cumsum : List ℚ → List ℚ
  | [] => []
  | w :: ws => w :: (cumsum ws).map (fun c => w + c)

/-- Lines 48-50: keep the (value, weight) pairs whose value is not null
(`mask = ~np.isnan(values)` applied to both arrays). -/
def nonNullPairs (values : List (Option ℚ)) (weights : List ℚ) : List (ℚ × ℚ) :=
  (values.zip weights).filterMap (fun p => p.1.map (fun v => (v, p.2)))

/-- The `np.nanmedian` of a null-free list: average of the two middle elements
of the ascending sort (they coincide for odd length). -/
def unweightedMedian (vs : List ℚ) : ℚ :=
  let s := sortVals vs
  (s.getD ((s.length - 1) / 2) 0 + s.getD (s.length / 2) 0) / 2

/-- Function `_weighted_median` (lines 45-62): mask nulls, fall back to the unweighted
median when the remaining weights sum to zero, otherwise sort by value,
take cumulative weights and return the value at the first index whose
cumulative weight reaches half of the total (`np.searchsorted` with side
left on the running sums, which are monotone for the nonnegative area
weights), clamped to the last index. -/
def weightedMedian (values : List (Option ℚ)) (weights : List ℚ) : Option ℚ :=
  if values.isEmpty then none
  else
    let pairs := nonNullPairs values weights
    if pairs.isEmpty then none
    else if (pairs.map Prod.snd).sum = 0 then
      some (unweightedMedian (pairs.map Prod.fst))
    else
      let sorted := sortPairs pairs
      let cutoff := (sorted.map Prod.snd).sum / 2
      let cums := cumsum (sorted.map Prod.snd)
      let idx := List.findIdx (fun c => decide (cutoff ≤ c)) cums
      some ((sorted.map Prod.fst).getD (min idx (sorted.length - 1)) 0)

/-- Lines 208-217: the `_weighted_median` of each group's values and
intersection areas, delivered by the line 217 left join.  The collision
with the NaN column from line 184 lands this value in `cs_ish_median_y`;
the output `cs_ish_median` column is re-added all-null (lines 232-235). -/
def medianAgg (pid : Nat) (inter : List InterRecord) : Option ℚ :=
  let g := groupRecords pid inter
  if g.isEmpty then none
  else weightedMedian (g.map (fun r => r.cs_ish)) (g.map (fun r => r.area_inter))

/-- The non-null scalar values of one group. -/
def nonNullValues (pid : Nat) (inter : List InterRecord) : List ℚ :=
  (groupRecords pid inter).filterMap (fun r => r.cs_ish)

/-- Lines 221-224: the groupby `max` of `cs_ish` (pandas skips nulls;
all-null and absent groups give null), delivered by the line 224 merge
into the suffixed `cs_ish_max_y` output column. -/
def maxAgg (pid : Nat) (inter : List InterRecord) : Option ℚ :=
  (nonNullValues pid inter).max?

/-- Lines 226-229: dually, the groupby `min`, delivered into the suffixed
`cs_ish_min_y` output column by the line 229 merge. -/
def minAgg (pid : Nat) (inter : List InterRecord) : Option ℚ :=
  (nonNullValues pid inter).min?

/-- One output row: the presentation unit id and the `cs_ish_<agg>` columns. -/
structure ResultRow where
  pid : Nat
  cols : List (String × Option ℚ)
deriving DecidableEq

/-- The aggregate-related columns of one output row, in dataframe order. -/
abbrev Columns := List (String × Option ℚ)

/-- Pandas column assignment `df[col] = v`: overwrite in place when the
column exists, else append at the end (lines 182-184 and 218-219). -/
def setCol (cols : Columns) (name : String) (v : Option ℚ) : Columns :=
  if (cols.map Prod.fst).contains name then
    cols.map (fun c => if c.1 = name then (name, v) else c)
  else cols ++ [(name, v)]

/-- Rename a column in place, keeping its position and value. -/
def renameCol (cols : Columns) (src dst : String) : Columns :=
  cols.map (fun c => if c.1 = src then (dst, c.2) else c)

/-- Lines 182-184: pre-create one all-NaN `cs_ish_<agg>` column per
requested aggregation, in request order. -/
def initAggCols (aggs : List String) : Columns :=
  aggs.foldl (fun cols a => setCol cols ("cs_ish_" ++ a) none) []

/-- One aggregation merge (lines 206, 217, 224, 229):
`result_pres.merge(agg_frame, on=id_field, how="left")`.  The aggregate
column name always collides with the NaN column pre-created at lines
182-184 (the merge of an aggregation runs exactly when its column was
initialized), so pandas applies its default suffixes: the left all-NaN
column is renamed to `cs_ish_<agg>_x` in place and the computed value
arrives in a `cs_ish_<agg>_y` column appended at the end; the plain name
disappears from the frame. -/
def mergeAggCol (cols : Columns) (a : String) (v : Option ℚ) : Columns :=
  renameCol cols ("cs_ish_" ++ a) ("cs_ish_" ++ a ++ "_x")
    ++ [("cs_ish_" ++ a ++ "_y", v)]

/-- Lines 231-235: every requested `cs_ish_<agg>` name that is no longer a
column (all of them, after the merge collisions) is re-added as all-NaN. -/
def readdAggCols (aggs : List String) (cols : Columns) : Columns :=
  aggs.foldl (fun cs a =>
    if (cs.map Prod.fst).contains ("cs_ish_" ++ a) then cs
    else cs ++ [("cs_ish_" ++ a, none)]) cols

/-- Lines 179-235, non-empty-overlay path, for one presentation unit:
pre-create the plain columns (182-184), run the four merge blocks in their
fixed program order `mean`, `median`, `max`, `min` (202-229; each runs when
its name was requested, and the median `records` list is nonempty whenever
the overlay is), then re-add the missing plain names as all-NaN (231-235). -/
def aggregateRowCols (aggs : List String) (pid : Nat)
    (inter : List InterRecord) : Columns :=
  let c1 := initAggCols aggs
  let c2 := if "mean" ∈ aggs then mergeAggCol c1 "mean" (meanAgg pid inter) else c1
  let c3 := if "median" ∈ aggs then mergeAggCol c2 "median" (medianAgg pid inter) else c2
  let c4 := if "max" ∈ aggs then mergeAggCol c3 "max" (maxAgg pid inter) else c3
  let c5 := if "min" ∈ aggs then mergeAggCol c4 "min" (minAgg pid inter) else c4
  readdAggCols aggs c5

/-- Lines 179-235: one output row per presentation unit, in input order.
The empty-overlay short circuit (lines 186-193) writes the pre-created
all-NaN plain columns unchanged; otherwise every row carries the
merge-collision columns of `aggregateRowCols`. -/
def aggregateRows (pres : List PresUnit) (inter : List InterRecord)
    (aggs : List String) : List ResultRow :=
  if inter.isEmpty then pres.map (fun u => ⟨u.pid, initAggCols aggs⟩)
  else pres.map (fun u => ⟨u.pid, aggregateRowCols aggs u.pid inter⟩)

/-- A layer of the file-backed store: either a source layer (whose rows
carry the `cs_ish` column) or a written aggregate result layer.  A result
layer read back as input lacks the `cs_ish` column. -/
inductive Layer where
  | sourceL : List SourceUnit → Layer
  | resultL : List ResultRow → Layer
deriving DecidableEq

/-- The GeoPackage store: named layers. -/
abbrev Store := List (String × Layer)

/-- Externally visible layer reads and writes, in program order. -/
inductive Event where
  | readLayer : String → Event
  | writeLayer : String → Event
deriving DecidableEq

/-- Outcome of one run: the final store, the raised error if any, and the
read/write events that happened, in order. -/
structure RunResult where
  store : Store
  error : Option String
  events : List Event
deriving DecidableEq

/-- Function `_safe_write_layer_to_gpkg` (lines 64-96): a new layer name is appended;
an existing name is replaced by rewriting every other layer and appending
the new content. -/
def safeWriteLayer (store : Store) (name : String) (l : Layer) : Store :=
  if (store.map Prod.fst).contains name then
    store.filter (fun e => e.1 != name) ++ [(name, l)]
  else store ++ [(name, l)]

/-- Function `aggregate_presentation_gpkg` (lines 98-246): normalize and validate the
requested aggregations (lines 111-120), then read the input layer (line 127,
failing when it is absent or lacks `cs_ish`), read the presentation layer
(line 139), overlay (line 173, external collaborator passed as a function),
aggregate, and write the result layer into the output store (lines 190/242).
Both the empty-overlay short circuit (lines 186-193) and the main path
write the rows `aggregateRows` produces; `aggregateRows` itself branches on
the overlay being empty, mirroring line 186. -/
def runAggregate (store : Store) (inputLayerName : String)
    (presUnits : List PresUnit)
    (overlay : List SourceUnit → List PresUnit → List InterRecord)
    (aggs : List String) (outName : String) : RunResult :=
  let aggsN := normalizeAggs aggs
  match aggsN.find? (fun a => !(SUPPORTED_AGGS.contains a)) with
  | some a => ⟨store, some ("Unsupported aggregation " ++ a), []⟩
  | none =>
    match store.lookup inputLayerName with
    | none => ⟨store, some "InputGpkgNotFound", [Event.readLayer inputLayerName]⟩
    | some (Layer.resultL _) =>
        ⟨store, some "MissingRequiredColumn cs_ish", [Event.readLayer inputLayerName]⟩
    | some (Layer.sourceL sus) =>
        let inter := overlay sus presUnits
        let rows := aggregateRows presUnits inter aggsN
        ⟨safeWriteLayer store outName (Layer.resultL rows), none,
          [Event.readLayer inputLayerName, Event.readLayer "presentation",
            Event.writeLayer outName]⟩

/-- Spec-side description of the weighted median (section 4.1 step 3 of the
spec): walk the value-ascending pairs accumulating weights and return the
first value whose cumulative weight reaches half the total; compared against
`weightedMedian`, which is translated from the code. -/
def firstCrossing (half : ℚ) (acc : ℚ) : List (ℚ × ℚ) → Option ℚ
  | [] => none
  | p :: rest => if half ≤ acc + p.2 then some p.1 else firstCrossing half (acc + p.2) rest

/-- Rewrite every record's areas, leaving ids and scalar values alone; used
to state that max and min do not depend on the area weights. -/
def withAreas (f g : ℚ → ℚ) (inter : List InterRecord) : List InterRecord :=
  inter.map (fun r => ⟨r.pid, r.cs_ish, f r.area_inter, g r.area_total⟩)

/-- Every aggregation computes null for a presentation unit with no
intersection records. -/
theorem aggs_none_of_group_nil (pid : Nat) (inter : List InterRecord)
    (h : groupRecords pid inter = []) :
    meanAgg pid inter = none ∧ medianAgg pid inter = none
    ∧ maxAgg pid inter = none ∧ minAgg pid inter = none := by
  unfold meanAgg medianAgg maxAgg minAgg nonNullValues
  simp [h]

/-- Setting a column to null preserves an all-null row. -/
theorem setCol_all_none (cols : Columns) (name : String)
    (h : ∀ c ∈ cols, c.2 = none) : ∀ c ∈ setCol cols name none, c.2 = none := by
  intro c hc
  unfold setCol at hc
  by_cases hmem : ((cols.map Prod.fst).contains name) = true
  · rw [if_pos hmem, List.mem_map] at hc
    obtain ⟨d, hd, hde⟩ := hc
    by_cases hd1 : d.1 = name
    · rw [if_pos hd1] at hde
      rw [← hde]
    · rw [if_neg hd1] at hde
      rw [← hde]
      exact h d hd
  · rw [if_neg hmem] at hc
    rcases List.mem_append.mp hc with hc | hc
    · exact h c hc
    · rw [List.mem_singleton] at hc
      rw [hc]

/-- The pre-created columns are all null. -/
theorem initAggCols_all_none (aggs : List String) :
    ∀ c ∈ initAggCols aggs, c.2 = none := by
  have general : ∀ (l : List String) (cols : Columns), (∀ c ∈ cols, c.2 = none) →
      ∀ c ∈ l.foldl (fun cs a => setCol cs ("cs_ish_" ++ a) none) cols, c.2 = none := by
    intro l
    induction l with
    | nil => intro cols h c hc; exact h c hc
    | cons a rest ih =>
      intro cols h c hc
      exact ih (setCol cols ("cs_ish_" ++ a) none) (setCol_all_none cols _ h) c hc
  exact general aggs [] (by intro c hc; exact absurd hc (List.not_mem_nil c))

/-- Renaming a column preserves an all-null row. -/
theorem renameCol_all_none (cols : Columns) (src dst : String)
    (h : ∀ c ∈ cols, c.2 = none) : ∀ c ∈ renameCol cols src dst, c.2 = none := by
  intro c hc
  unfold renameCol at hc
  rw [List.mem_map] at hc
  obtain ⟨d, hd, hde⟩ := hc
  by_cases hd1 : d.1 = src
  · rw [if_pos hd1] at hde
    rw [← hde]
    exact h d hd
  · rw [if_neg hd1] at hde
    rw [← hde]
    exact h d hd

/-- Merging a null aggregate preserves an all-null row. -/
theorem mergeAggCol_all_none (cols : Columns) (a : String)
    (h : ∀ c ∈ cols, c.2 = none) : ∀ c ∈ mergeAggCol cols a none, c.2 = none := by
  intro c hc
  unfold mergeAggCol at hc
  rcases List.mem_append.mp hc with hc | hc
  · exact renameCol_all_none cols _ _ h c hc
  · rw [List.mem_singleton] at hc
    rw [hc]

/-- A conditional merge of a null aggregate preserves an all-null row. -/
theorem ite_mergeAggCol_all_none (P : Prop) [Decidable P] (cols : Columns)
    (a : String) (h : ∀ c ∈ cols, c.2 = none) :
    ∀ c ∈ (if P then mergeAggCol cols a none else cols), c.2 = none := by
  by_cases hp : P
  · rw [if_pos hp]
    exact mergeAggCol_all_none cols a h
  · rw [if_neg hp]
    exact h

/-- Re-adding missing plain columns preserves an all-null row. -/
theorem readdAggCols_all_none (aggs : List String) :
    ∀ cols : Columns, (∀ c ∈ cols, c.2 = none) →
      ∀ c ∈ readdAggCols aggs cols, c.2 = none := by
  induction aggs with
  | nil => intro cols h c hc; exact h c hc
  | cons a rest ih =>
    intro cols h c hc
    refine ih _ ?_ c hc
    intro d hd
    dsimp only at hd
    by_cases hm : ((cols.map Prod.fst).contains ("cs_ish_" ++ a)) = true
    · rw [if_pos hm] at hd
      exact h d hd
    · rw [if_neg hm] at hd
      rcases List.mem_append.mp hd with hd | hd
      · exact h d hd
      · rw [List.mem_singleton] at hd
        rw [hd]

/-- For a unit with no intersection records every column of the
non-empty-overlay path is null: the pre-created and re-added plain columns
by construction, the suffixed ones because every aggregate is null. -/
theorem aggregateRowCols_all_none_of_group_nil (aggs : List String) (pid : Nat)
    (inter : List InterRecord) (h : groupRecords pid inter = []) :
    ∀ c ∈ aggregateRowCols aggs pid inter, c.2 = none := by
  obtain ⟨hm, hmed, hmax, hmin⟩ := aggs_none_of_group_nil pid inter h
  unfold aggregateRowCols
  dsimp only
  rw [hm, hmed, hmax, hmin]
  exact readdAggCols_all_none aggs _
    (ite_mergeAggCol_all_none _ _ "min"
      (ite_mergeAggCol_all_none _ _ "max"
        (ite_mergeAggCol_all_none _ _ "median"
          (ite_mergeAggCol_all_none _ _ "mean" (initAggCols_all_none aggs)))))

/-- Masking null values from an all-null list leaves nothing. -/
theorem nonNullPairs_all_none (vals : List (Option ℚ)) (ws : List ℚ)
    (h : ∀ v ∈ vals, v = none) : nonNullPairs vals ws = [] := by
  unfold nonNullPairs
  rw [List.filterMap_eq_nil_iff]
  intro p hp
  rw [h p.1 (List.of_mem_zip hp).1]
  rfl

/-- The weighted median of a group with no non-null values is null. -/
theorem weightedMedian_none_of_pairs_nil (vals : List (Option ℚ)) (ws : List ℚ)
    (h : nonNullPairs vals ws = []) : weightedMedian vals ws = none := by
  unfold weightedMedian
  by_cases hv : vals.isEmpty <;> simp [hv, h]

/-- For every presentation-unit group of intersection records, the groupby
aggregate behind the mean merge is the sum over the group of (scalar with
null replaced by 0) times (`area_inter / area_total` of the owning
presentation unit), with no renormalization by the sum of weights. -/
theorem meanAgg_is_unnormalized_weighted_sum (inter : List InterRecord)
    (pid : Nat) (A : ℚ)
    (hA : ∀ r ∈ groupRecords pid inter, r.area_total = A)
    (hne : groupRecords pid inter ≠ []) :
    meanAgg pid inter =
      some (((groupRecords pid inter).map
        (fun r => (r.cs_ish.getD 0) * (r.area_inter / A))).sum) := by
  unfold meanAgg
  rw [if_neg (by simp [List.isEmpty_iff, hne])]
  congr 2
  apply List.map_congr_left
  intro r hr
  unfold weightedCol
  rw [hA r hr]

/-- C1: evaluating the program at a unit of area 2 half covered by a
single source unit of value 3: the weighted sum `3 * (1/2)` is computed,
but the merge collision lands it in the suffixed `cs_ish_mean_y` column,
and the output `cs_ish_mean` column, re-added by lines 232-235, is null —
not the weighted sum the claim (and the script's own docstring) promise. -/
theorem C1_mean_column_nulled_by_merge_collision :
    aggregateRows [⟨1, 2⟩] [⟨1, some 3, 1, 2⟩] ["mean"]
      = [⟨1, [("cs_ish_mean_x", none), ("cs_ish_mean_y", some (3 * (1 / 2))),
          ("cs_ish_mean", none)]⟩] := by
  have h : meanAgg 1 [⟨1, some 3, 1, 2⟩] = some (3 * (1 / 2)) := by
    rw [meanAgg_is_unnormalized_weighted_sum [⟨1, some 3, 1, 2⟩] 1 2 (by decide) (by decide)]
    norm_num [groupRecords, List.filter]
  calc aggregateRows [⟨1, 2⟩] [⟨1, some 3, 1, 2⟩] ["mean"]
      = [⟨1, [("cs_ish_mean_x", none),
          ("cs_ish_mean_y", meanAgg 1 [⟨1, some 3, 1, 2⟩]),
          ("cs_ish_mean", none)]⟩] := rfl
    _ = [⟨1, [("cs_ish_mean_x", none), ("cs_ish_mean_y", some (3 * (1 / 2))),
          ("cs_ish_mean", none)]⟩] := by rw [h]

/-- C3: the output has one row per presentation unit id, in input order;
a unit with no intersection records has null in every requested aggregate
column; with no intersection records at all, every aggregate column of
every row is null. -/
theorem C3_left_join_keeps_every_unit (pres : List PresUnit)
    (inter : List InterRecord) (aggs : List String) :
    (aggregateRows pres inter aggs).map ResultRow.pid = pres.map PresUnit.pid
    ∧ (∀ row ∈ aggregateRows pres inter aggs, groupRecords row.pid inter = [] →
        ∀ c ∈ row.cols, c.2 = none)
    ∧ (inter = [] → ∀ row ∈ aggregateRows pres inter aggs,
        ∀ c ∈ row.cols, c.2 = none) := by
  have key : ∀ row ∈ aggregateRows pres inter aggs, groupRecords row.pid inter = [] →
      ∀ c ∈ row.cols, c.2 = none := by
    intro row hrow hg c hc
    unfold aggregateRows at hrow
    by_cases he : inter.isEmpty = true
    · rw [if_pos he, List.mem_map] at hrow
      obtain ⟨u, hu, rfl⟩ := hrow
      exact initAggCols_all_none aggs c hc
    · rw [if_neg he, List.mem_map] at hrow
      obtain ⟨u, hu, rfl⟩ := hrow
      exact aggregateRowCols_all_none_of_group_nil aggs u.pid inter hg c hc
  refine ⟨?_, key, ?_⟩
  · unfold aggregateRows
    by_cases he : inter.isEmpty = true
    · rw [if_pos he]
      simp [List.map_map]
    · rw [if_neg he]
      simp [List.map_map]
  · intro h row hrow c hc
    refine key row hrow ?_ c hc
    rw [h]
    rfl

/-- C3 witness: one presentation unit, no intersections, two requested
aggregations: one row with id 1, both columns null. -/
theorem C3_witness :
    (aggregateRows [⟨1, 2⟩] [] ["mean", "max"]).map ResultRow.pid = [1]
    ∧ ∀ row ∈ aggregateRows [⟨1, 2⟩] [] ["mean", "max"],
        ∀ c ∈ row.cols, c.2 = none := by
  obtain ⟨h1, -, h3⟩ := C3_left_join_keeps_every_unit [⟨1, 2⟩] [] ["mean", "max"]
  exact ⟨h1, h3 rfl⟩

/-- A group with at least one record, all of whose scalar values are null,
has groupby aggregates mean 0 (nulls are zero-filled before weighting)
while median, max and min are null. -/
theorem allNull_group_mean_zero_rest_null (inter : List InterRecord)
    (pid : Nat)
    (hne : groupRecords pid inter ≠ [])
    (hnull : ∀ r ∈ groupRecords pid inter, r.cs_ish = none) :
    meanAgg pid inter = some 0 ∧ medianAgg pid inter = none
    ∧ maxAgg pid inter = none ∧ minAgg pid inter = none := by
  have hvals : ∀ v ∈ (groupRecords pid inter).map (fun r => r.cs_ish), v = none := by
    intro v hv
    simp only [List.mem_map] at hv
    obtain ⟨r, hr, rfl⟩ := hv
    exact hnull r hr
  have hnnv : nonNullValues pid inter = [] := by
    unfold nonNullValues
    rw [List.filterMap_eq_nil_iff]
    exact hnull
  refine ⟨?_, ?_, ?_, ?_⟩
  · unfold meanAgg
    rw [if_neg (by simp [List.isEmpty_iff, hne])]
    congr 1
    apply List.sum_eq_zero
    intro x hx
    simp only [List.mem_map] at hx
    obtain ⟨r, hr, rfl⟩ := hx
    unfold weightedCol
    rw [hnull r hr]
    simp
  · unfold medianAgg
    rw [if_neg (by simp [List.isEmpty_iff, hne])]
    exact weightedMedian_none_of_pairs_nil _ _
      (nonNullPairs_all_none _ _ hvals)
  · unfold maxAgg
    rw [hnnv]
    rfl
  · unfold minAgg
    rw [hnnv]
    rfl

/-- C9: evaluating the program at a unit covered only by a null-valued
record (area 3 of 4): the groupby sum 0 lands in `cs_ish_mean_y`, but the
output `cs_ish_mean` column, re-added by lines 232-235, is null — not 0.0;
median, max and min are null as the claim says. -/
theorem C9_allnull_mean_zero_lost_by_merge_collision :
    aggregateRows [⟨2, 4⟩] [⟨2, none, 3, 4⟩] ["mean", "median", "max", "min"]
      = [⟨2, [("cs_ish_mean_x", none), ("cs_ish_median_x", none),
          ("cs_ish_max_x", none), ("cs_ish_min_x", none),
          ("cs_ish_mean_y", some 0), ("cs_ish_median_y", none),
          ("cs_ish_max_y", none), ("cs_ish_min_y", none),
          ("cs_ish_mean", none), ("cs_ish_median", none),
          ("cs_ish_max", none), ("cs_ish_min", none)]⟩] := by
  obtain ⟨hm, hmed, hmax, hmin⟩ :=
    allNull_group_mean_zero_rest_null [⟨2, none, 3, 4⟩] 2 (by decide) (by decide)
  calc aggregateRows [⟨2, 4⟩] [⟨2, none, 3, 4⟩] ["mean", "median", "max", "min"]
      = [⟨2, [("cs_ish_mean_x", none), ("cs_ish_median_x", none),
          ("cs_ish_max_x", none), ("cs_ish_min_x", none),
          ("cs_ish_mean_y", meanAgg 2 [⟨2, none, 3, 4⟩]),
          ("cs_ish_median_y", medianAgg 2 [⟨2, none, 3, 4⟩]),
          ("cs_ish_max_y", maxAgg 2 [⟨2, none, 3, 4⟩]),
          ("cs_ish_min_y", minAgg 2 [⟨2, none, 3, 4⟩]),
          ("cs_ish_mean", none), ("cs_ish_median", none),
          ("cs_ish_max", none), ("cs_ish_min", none)]⟩] := rfl
    _ = [⟨2, [("cs_ish_mean_x", none), ("cs_ish_median_x", none),
          ("cs_ish_max_x", none), ("cs_ish_min_x", none),
          ("cs_ish_mean_y", some 0), ("cs_ish_median_y", none),
          ("cs_ish_max_y", none), ("cs_ish_min_y", none),
          ("cs_ish_mean", none), ("cs_ish_median", none),
          ("cs_ish_max", none), ("cs_ish_min", none)]⟩] := by
      rw [hm, hmed, hmax, hmin]

/-- C7: requesting the sentinel `all` runs exactly like requesting the four
aggregations explicitly (the request is normalized before anything else
happens), but a run with intersections does not produce exactly the four
columns: evaluated at a concrete covered unit it emits the suffixed
`_x`/`_y` pairs plus the re-added all-null plain names, twelve columns. -/
theorem C7_all_equals_explicit_but_columns_polluted :
    (∀ (store : Store) (inName outName : String) (pres : List PresUnit)
        (overlay : List SourceUnit → List PresUnit → List InterRecord),
      runAggregate store inName pres overlay ["all"] outName
        = runAggregate store inName pres overlay ["mean", "median", "max", "min"] outName)
    ∧ (aggregateRows [⟨1, 2⟩] [⟨1, some 3, 1, 2⟩] (normalizeAggs ["all"])).map
        (fun r => r.cols.map Prod.fst)
      = [["cs_ish_mean_x", "cs_ish_median_x", "cs_ish_max_x", "cs_ish_min_x",
          "cs_ish_mean_y", "cs_ish_median_y", "cs_ish_max_y", "cs_ish_min_y",
          "cs_ish_mean", "cs_ish_median", "cs_ish_max", "cs_ish_min"]] := by
  constructor
  · intro store inName outName pres overlay
    have h1 : normalizeAggs ["all"] = SUPPORTED_AGGS := rfl
    have h2 : normalizeAggs ["mean", "median", "max", "min"] = SUPPORTED_AGGS := rfl
    unfold runAggregate
    rw [h1, h2]
  · rfl

/-- Folding `max` over a list returns the start or a member, bounds the
start from below and bounds every member. -/
theorem foldl_max_spec (xs : List ℚ) : ∀ x : ℚ,
    (xs.foldl max x = x ∨ xs.foldl max x ∈ xs)
    ∧ x ≤ xs.foldl max x ∧ ∀ v ∈ xs, v ≤ xs.foldl max x := by
  induction xs with
  | nil => intro x; exact ⟨Or.inl rfl, le_refl x, by simp⟩
  | cons y ys ih =>
    intro x
    obtain ⟨hmem, hle, hall⟩ := ih (max x y)
    refine ⟨?_, le_trans (le_max_left x y) hle, ?_⟩
    · rcases hmem with h | h
      · rcases max_choice x y with hc | hc
        · left; rw [List.foldl_cons, h, hc]
        · right; rw [List.foldl_cons, h, hc]; exact List.mem_cons_self y ys
      · right; exact List.mem_cons_of_mem y h
    · intro v hv
      rcases List.mem_cons.mp hv with rfl | hv
      · exact le_trans (le_max_right x v) hle
      · exact hall v hv

/-- Dual of `foldl_max_spec` for `min`. -/
theorem foldl_min_spec (xs : List ℚ) : ∀ x : ℚ,
    (xs.foldl min x = x ∨ xs.foldl min x ∈ xs)
    ∧ xs.foldl min x ≤ x ∧ ∀ v ∈ xs, xs.foldl min x ≤ v := by
  induction xs with
  | nil => intro x; exact ⟨Or.inl rfl, le_refl x, by simp⟩
  | cons y ys ih =>
    intro x
    obtain ⟨hmem, hle, hall⟩ := ih (min x y)
    refine ⟨?_, le_trans hle (min_le_left x y), ?_⟩
    · rcases hmem with h | h
      · rcases min_choice x y with hc | hc
        · left; rw [List.foldl_cons, h, hc]
        · right; rw [List.foldl_cons, h, hc]; exact List.mem_cons_self y ys
      · right; exact List.mem_cons_of_mem y h
    · intro v hv
      rcases List.mem_cons.mp hv with rfl | hv
      · exact le_trans hle (min_le_right x v)
      · exact hall v hv

/-- A `List.max?` result is a member that bounds every member. -/
theorem max?_is_greatest (l : List ℚ) (m : ℚ) (h : l.max? = some m) :
    m ∈ l ∧ ∀ v ∈ l, v ≤ m := by
  cases l with
  | nil => exact absurd h (by simp)
  | cons x xs =>
    have hm : m = xs.foldl max x := by
      have : (x :: xs).max? = some (xs.foldl max x) := rfl
      rw [this] at h
      exact (Option.some_inj.mp h).symm
    obtain ⟨hmem, hle, hall⟩ := foldl_max_spec xs x
    subst hm
    refine ⟨?_, ?_⟩
    · rcases hmem with h | h
      · rw [h]; exact List.mem_cons_self x xs
      · exact List.mem_cons_of_mem x h
    · intro v hv
      rcases List.mem_cons.mp hv with rfl | hv
      · exact hle
      · exact hall v hv

/-- A `List.min?` result is a member bounded by every member. -/
theorem min?_is_least (l : List ℚ) (m : ℚ) (h : l.min? = some m) :
    m ∈ l ∧ ∀ v ∈ l, m ≤ v := by
  cases l with
  | nil => exact absurd h (by simp)
  | cons x xs =>
    have hm : m = xs.foldl min x := by
      have : (x :: xs).min? = some (xs.foldl min x) := rfl
      rw [this] at h
      exact (Option.some_inj.mp h).symm
    obtain ⟨hmem, hle, hall⟩ := foldl_min_spec xs x
    subst hm
    refine ⟨?_, ?_⟩
    · rcases hmem with h | h
      · rw [h]; exact List.mem_cons_self x xs
      · exact List.mem_cons_of_mem x h
    · intro v hv
      rcases List.mem_cons.mp hv with rfl | hv
      · exact hle
      · exact hall v hv

/-- Rewriting areas does not change a group's non-null values. -/
theorem nonNullValues_withAreas (f g : ℚ → ℚ) (pid : Nat)
    (inter : List InterRecord) :
    nonNullValues pid (withAreas f g inter) = nonNullValues pid inter := by
  unfold nonNullValues groupRecords withAreas
  rw [List.filter_map, List.filterMap_map]
  rfl

/-- The groupby max and min are the plain maximum and minimum of the
group's non-null scalar values: area weights play no role (rewriting every
area leaves them unchanged), a returned value is a non-null member bounding
all the others, and both are null when the group has no non-null value. -/
theorem maxAgg_minAgg_plain_over_non_null (inter : List InterRecord)
    (pid : Nat) (f g : ℚ → ℚ) :
    (maxAgg pid (withAreas f g inter) = maxAgg pid inter
      ∧ minAgg pid (withAreas f g inter) = minAgg pid inter)
    ∧ (∀ m, maxAgg pid inter = some m →
        m ∈ nonNullValues pid inter ∧ ∀ v ∈ nonNullValues pid inter, v ≤ m)
    ∧ (∀ m, minAgg pid inter = some m →
        m ∈ nonNullValues pid inter ∧ ∀ v ∈ nonNullValues pid inter, m ≤ v)
    ∧ (nonNullValues pid inter = [] →
        maxAgg pid inter = none ∧ minAgg pid inter = none) := by
  refine ⟨⟨?_, ?_⟩, ?_, ?_, ?_⟩
  · unfold maxAgg
    rw [nonNullValues_withAreas]
  · unfold minAgg
    rw [nonNullValues_withAreas]
  · intro m hm
    exact max?_is_greatest _ m hm
  · intro m hm
    exact min?_is_least _ m hm
  · intro h
    unfold maxAgg minAgg
    rw [h]
    exact ⟨rfl, rfl⟩

/-- C6: evaluating the program at a group with one null and one value 4 at
equal areas: the groupby max and min 4 are computed (nulls ignored, weights
irrelevant), but both land in the suffixed `_y` columns; the output
`cs_ish_max` and `cs_ish_min` columns, re-added by lines 232-235, are null
even though a non-null value exists. -/
theorem C6_maxmin_columns_nulled_by_merge_collision :
    aggregateRows [⟨1, 2⟩] [⟨1, none, 1, 2⟩, ⟨1, some 4, 1, 2⟩] ["max", "min"]
      = [⟨1, [("cs_ish_max_x", none), ("cs_ish_min_x", none),
          ("cs_ish_max_y", some 4), ("cs_ish_min_y", some 4),
          ("cs_ish_max", none), ("cs_ish_min", none)]⟩] := by
  have h1 : maxAgg 1 [⟨1, none, 1, 2⟩, ⟨1, some 4, 1, 2⟩] = some 4 := by decide
  have h2 : minAgg 1 [⟨1, none, 1, 2⟩, ⟨1, some 4, 1, 2⟩] = some 4 := by decide
  calc aggregateRows [⟨1, 2⟩] [⟨1, none, 1, 2⟩, ⟨1, some 4, 1, 2⟩] ["max", "min"]
      = [⟨1, [("cs_ish_max_x", none), ("cs_ish_min_x", none),
          ("cs_ish_max_y", maxAgg 1 [⟨1, none, 1, 2⟩, ⟨1, some 4, 1, 2⟩]),
          ("cs_ish_min_y", minAgg 1 [⟨1, none, 1, 2⟩, ⟨1, some 4, 1, 2⟩]),
          ("cs_ish_max", none), ("cs_ish_min", none)]⟩] := rfl
    _ = [⟨1, [("cs_ish_max_x", none), ("cs_ish_min_x", none),
          ("cs_ish_max_y", some 4), ("cs_ish_min_y", some 4),
          ("cs_ish_max", none), ("cs_ish_min", none)]⟩] := by
      rw [h1, h2]

/-- A list of nonnegative rationals summing to zero is all zero. -/
theorem eq_zero_of_nonneg_sum_zero (l : List ℚ) (hn : ∀ x ∈ l, 0 ≤ x)
    (hs : l.sum = 0) : ∀ x ∈ l, x = 0 := by
  induction l with
  | nil => intro x hx; exact absurd hx (List.not_mem_nil x)
  | cons y ys ih =>
    have hys : 0 ≤ ys.sum := List.sum_nonneg (fun x hx => hn x (List.mem_cons_of_mem y hx))
    have hy : 0 ≤ y := hn y (List.mem_cons_self y ys)
    rw [List.sum_cons] at hs
    have hy0 : y = 0 := le_antisymm (by linarith) hy
    have hs0 : ys.sum = 0 := by linarith
    intro x hx
    rcases List.mem_cons.mp hx with rfl | hx
    · exact hy0
    · exact ih (fun z hz => hn z (List.mem_cons_of_mem y hz)) hs0 x hx

/-- The weight of a masked pair is one of the input weights. -/
theorem snd_mem_of_mem_nonNullPairs (vals : List (Option ℚ)) (ws : List ℚ)
    (p : ℚ × ℚ) (hp : p ∈ nonNullPairs vals ws) : p.2 ∈ ws := by
  unfold nonNullPairs at hp
  rw [List.mem_filterMap] at hp
  obtain ⟨q, hq, hmap⟩ := hp
  cases h1 : q.1 with
  | none => rw [h1] at hmap; exact absurd hmap (by simp)
  | some v =>
    rw [h1] at hmap
    simp only [Option.map_some'] at hmap
    obtain rfl : (v, q.2) = p := Option.some_inj.mp hmap
    exact (List.of_mem_zip hq).2

/-- When the group's area weights are nonnegative and sum to zero but a
non-null value exists, the groupby median falls back to the unweighted
median of the non-null values; a group with no non-null value computes a
null median. -/
theorem medianAgg_zero_weight_fallback (inter : List InterRecord)
    (pid : Nat) :
    ((∀ r ∈ groupRecords pid inter, 0 ≤ r.area_inter) →
      ((groupRecords pid inter).map (fun r => r.area_inter)).sum = 0 →
      nonNullPairs ((groupRecords pid inter).map (fun r => r.cs_ish))
          ((groupRecords pid inter).map (fun r => r.area_inter)) ≠ [] →
      medianAgg pid inter
        = some (unweightedMedian
            ((nonNullPairs ((groupRecords pid inter).map (fun r => r.cs_ish))
              ((groupRecords pid inter).map (fun r => r.area_inter))).map Prod.fst)))
    ∧ (nonNullPairs ((groupRecords pid inter).map (fun r => r.cs_ish))
          ((groupRecords pid inter).map (fun r => r.area_inter)) = [] →
        medianAgg pid inter = none) := by
  constructor
  · intro hw hz hp
    have hg : groupRecords pid inter ≠ [] := by
      intro h
      rw [h] at hp
      exact hp rfl
    have hwnn : ∀ x ∈ (groupRecords pid inter).map (fun r => r.area_inter), 0 ≤ x := by
      intro x hx
      rw [List.mem_map] at hx
      obtain ⟨r, hr, rfl⟩ := hx
      exact hw r hr
    have hall0 := eq_zero_of_nonneg_sum_zero _ hwnn hz
    have hmask0 : ((nonNullPairs ((groupRecords pid inter).map (fun r => r.cs_ish))
        ((groupRecords pid inter).map (fun r => r.area_inter))).map Prod.snd).sum = 0 := by
      apply List.sum_eq_zero
      intro x hx
      rw [List.mem_map] at hx
      obtain ⟨p, hpm, rfl⟩ := hx
      exact hall0 p.2 (snd_mem_of_mem_nonNullPairs _ _ p hpm)
    unfold medianAgg weightedMedian
    rw [if_neg (by simp [List.isEmpty_iff, hg])]
    rw [if_neg (by simp [List.isEmpty_iff, List.map_eq_nil_iff, hg]), if_neg (by simp [List.isEmpty_iff, hp])]
    rw [if_pos hmask0]
  · intro hp
    by_cases hg : groupRecords pid inter = []
    · unfold medianAgg
      rw [if_pos (by simp [List.isEmpty_iff, hg])]
    · unfold medianAgg
      rw [if_neg (by simp [List.isEmpty_iff, hg])]
      exact weightedMedian_none_of_pairs_nil _ _ hp

/-- C5: evaluating the program at a zero-weight group with values 2 and 4:
the unweighted-median fallback 3 is computed inside `_weighted_median`, but
it lands in `cs_ish_median_y`; the output `cs_ish_median` column is null.
For an all-null group the median is null in every column, as claimed. -/
theorem C5_fallback_median_nulled_by_merge_collision :
    (aggregateRows [⟨3, 5⟩] [⟨3, some 2, 0, 5⟩, ⟨3, some 4, 0, 5⟩] ["median"]
      = [⟨3, [("cs_ish_median_x", none), ("cs_ish_median_y", some 3),
          ("cs_ish_median", none)]⟩])
    ∧ (aggregateRows [⟨4, 5⟩] [⟨4, none, 1, 5⟩] ["median"]
      = [⟨4, [("cs_ish_median_x", none), ("cs_ish_median_y", none),
          ("cs_ish_median", none)]⟩]) := by
  constructor
  · have h : medianAgg 3 [⟨3, some 2, 0, 5⟩, ⟨3, some 4, 0, 5⟩] = some 3 := by
      rw [(medianAgg_zero_weight_fallback [⟨3, some 2, 0, 5⟩, ⟨3, some 4, 0, 5⟩] 3).1
        (by decide) (by norm_num [groupRecords, List.filter]) (by decide)]
      show some (((2:ℚ) + 4) / 2) = some 3
      norm_num
    calc aggregateRows [⟨3, 5⟩] [⟨3, some 2, 0, 5⟩, ⟨3, some 4, 0, 5⟩] ["median"]
        = [⟨3, [("cs_ish_median_x", none),
            ("cs_ish_median_y", medianAgg 3 [⟨3, some 2, 0, 5⟩, ⟨3, some 4, 0, 5⟩]),
            ("cs_ish_median", none)]⟩] := rfl
      _ = [⟨3, [("cs_ish_median_x", none), ("cs_ish_median_y", some 3),
            ("cs_ish_median", none)]⟩] := by rw [h]
  · have h : medianAgg 4 [⟨4, none, 1, 5⟩] = none :=
      (medianAgg_zero_weight_fallback [⟨4, none, 1, 5⟩] 4).2 (by decide)
    calc aggregateRows [⟨4, 5⟩] [⟨4, none, 1, 5⟩] ["median"]
        = [⟨4, [("cs_ish_median_x", none),
            ("cs_ish_median_y", medianAgg 4 [⟨4, none, 1, 5⟩]),
            ("cs_ish_median", none)]⟩] := rfl
      _ = [⟨4, [("cs_ish_median_x", none), ("cs_ish_median_y", none),
            ("cs_ish_median", none)]⟩] := by rw [h]

/-- Inserting into a sorted list permutes consing. -/
theorem insertPair_perm (x : ℚ × ℚ) : ∀ l : List (ℚ × ℚ),
    (insertPair x l).Perm (x :: l) := by
  intro l
  induction l with
  | nil => exact List.Perm.refl _
  | cons y ys ih =>
    unfold insertPair
    by_cases h : x.1 ≤ y.1
    · rw [if_pos h]
    · rw [if_neg h]
      exact (List.Perm.cons y ih).trans (List.Perm.swap x y ys)

/-- The value-ascending sort is a permutation of its input. -/
theorem sortPairs_perm (l : List (ℚ × ℚ)) : (sortPairs l).Perm l := by
  induction l with
  | nil => exact List.Perm.refl _
  | cons x xs ih =>
    exact (insertPair_perm x (sortPairs xs)).trans (List.Perm.cons x ih)

/-- Taking running sums preserves length. -/
theorem cumsum_length (l : List ℚ) : (cumsum l).length = l.length := by
  induction l with
  | nil => rfl
  | cons w ws ih => simp [cumsum, ih]

/-- The total of a nonempty list appears among its running sums. -/
theorem sum_mem_cumsum (l : List ℚ) (h : l ≠ []) : l.sum ∈ cumsum l := by
  induction l with
  | nil => exact absurd rfl h
  | cons w ws ih =>
    by_cases hws : ws = []
    · subst hws
      simp [cumsum]
    · simp only [cumsum, List.sum_cons]
      exact List.mem_cons_of_mem _ (List.mem_map.mpr ⟨ws.sum, ih hws, rfl⟩)

/-- Searching a mapped list searches the preimages. -/
theorem findIdx_over_map {α β : Type} (p : β → Bool) (f : α → β) :
    ∀ l : List α, List.findIdx p (l.map f) = List.findIdx (fun x => p (f x)) l := by
  intro l
  induction l with
  | nil => rfl
  | cons x xs ih =>
    rw [List.map_cons, List.findIdx_cons, List.findIdx_cons, ih]

/-- Walking the pairs accumulating weights agrees with `np.searchsorted` on
the running sums: when the accumulated total reaches the target, the first
crossing is the value at the first index whose running sum reaches it. -/
theorem firstCrossing_eq_findIdx (half : ℚ) :
    ∀ (l : List (ℚ × ℚ)) (acc : ℚ), l ≠ [] →
      half ≤ acc + (l.map Prod.snd).sum →
      firstCrossing half acc l
        = some ((l.map Prod.fst).getD
            (List.findIdx (fun c => decide (half ≤ acc + c)) (cumsum (l.map Prod.snd))) 0) := by
  intro l
  induction l with
  | nil => intro acc h; exact absurd rfl h
  | cons p rest ih =>
    intro acc _ hsum
    by_cases hc : half ≤ acc + p.2
    · unfold firstCrossing
      rw [if_pos hc]
      simp only [List.map_cons, cumsum, List.findIdx_cons, decide_eq_true hc, cond_true]
      rfl
    · have hrest : rest ≠ [] := by
        intro h
        subst h
        simp only [List.map_cons, List.map_nil, List.sum_cons, List.sum_nil, add_zero] at hsum
        exact hc hsum
      have hsum2 : half ≤ (acc + p.2) + (rest.map Prod.snd).sum := by
        rw [List.map_cons, List.sum_cons, ← add_assoc] at hsum
        exact hsum
      have step : firstCrossing half acc (p :: rest) = firstCrossing half (acc + p.2) rest := by
        rw [show firstCrossing half acc (p :: rest)
              = if half ≤ acc + p.2 then some p.1 else firstCrossing half (acc + p.2) rest
            from rfl,
          if_neg hc]
      rw [step, ih (acc + p.2) hrest hsum2]
      simp only [List.map_cons, cumsum, List.findIdx_cons, decide_eq_false hc, cond_false]
      rw [findIdx_over_map]
      have hpred : (fun c => decide (half ≤ acc + (p.2 + c)))
          = (fun c => decide (half ≤ acc + p.2 + c)) := by
        funext c
        rw [add_assoc]
      rw [hpred, List.getD_cons_succ]

/-- Evaluation of `_weighted_median` on its main branch: non-null values
exist and their weights do not sum to zero. -/
theorem weightedMedian_eval (vals : List (Option ℚ)) (ws : List ℚ)
    (h1 : vals ≠ []) (h2 : nonNullPairs vals ws ≠ [])
    (h3 : ((nonNullPairs vals ws).map Prod.snd).sum ≠ 0) :
    weightedMedian vals ws
      = some (((sortPairs (nonNullPairs vals ws)).map Prod.fst).getD
          (min (List.findIdx
              (fun c => decide ((((sortPairs (nonNullPairs vals ws)).map Prod.snd).sum / 2) ≤ c))
              (cumsum ((sortPairs (nonNullPairs vals ws)).map Prod.snd)))
            ((sortPairs (nonNullPairs vals ws)).length - 1)) 0) := by
  unfold weightedMedian
  rw [if_neg (by simp [List.isEmpty_iff, h1]),
    if_neg (by simp [List.isEmpty_iff, h2]), if_neg h3]

/-- On a group with a non-null value and positive non-null area-weight
total, the groupby median is the first value of the ascending sort whose
cumulative weight reaches half the total weight. -/
theorem medianAgg_first_value_reaching_half (inter : List InterRecord) (pid : Nat)
    (hw : ∀ r ∈ groupRecords pid inter, 0 ≤ r.area_inter)
    (hpos : 0 < ((nonNullPairs ((groupRecords pid inter).map (fun r => r.cs_ish))
        ((groupRecords pid inter).map (fun r => r.area_inter))).map Prod.snd).sum) :
    medianAgg pid inter
      = firstCrossing
          (((sortPairs (nonNullPairs ((groupRecords pid inter).map (fun r => r.cs_ish))
              ((groupRecords pid inter).map (fun r => r.area_inter)))).map Prod.snd).sum / 2)
          0
          (sortPairs (nonNullPairs ((groupRecords pid inter).map (fun r => r.cs_ish))
            ((groupRecords pid inter).map (fun r => r.area_inter)))) := by
  have hPne : nonNullPairs ((groupRecords pid inter).map (fun r => r.cs_ish))
      ((groupRecords pid inter).map (fun r => r.area_inter)) ≠ [] := by
    intro h
    rw [h] at hpos
    simp at hpos
  have hg : groupRecords pid inter ≠ [] := by
    intro h
    apply hPne
    rw [h]
    rfl
  have hvne : (groupRecords pid inter).map (fun r => r.cs_ish) ≠ [] := by
    simp [List.map_eq_nil_iff, hg]
  unfold medianAgg
  rw [if_neg (by simp [List.isEmpty_iff, hg])]
  rw [weightedMedian_eval _ _ hvne hPne (Ne.symm (ne_of_lt hpos))]
  set P := nonNullPairs ((groupRecords pid inter).map (fun r => r.cs_ish))
      ((groupRecords pid inter).map (fun r => r.area_inter)) with hPdef
  have hsum_eq : ((sortPairs P).map Prod.snd).sum = (P.map Prod.snd).sum :=
    ((sortPairs_perm P).map Prod.snd).sum_eq
  have hpos2 : 0 < ((sortPairs P).map Prod.snd).sum := by
    rw [hsum_eq]
    exact hpos
  have hsne : sortPairs P ≠ [] := by
    intro h
    have hlen := (sortPairs_perm P).length_eq
    rw [h] at hlen
    exact hPne (List.length_eq_zero.mp hlen.symm)
  have hhalf : ((sortPairs P).map Prod.snd).sum / 2
      ≤ 0 + ((sortPairs P).map Prod.snd).sum := by
    rw [zero_add]
    exact half_le_self (le_of_lt hpos2)
  have hfc := firstCrossing_eq_findIdx (((sortPairs P).map Prod.snd).sum / 2)
    (sortPairs P) 0 hsne hhalf
  have hpred : (fun c => decide (((sortPairs P).map Prod.snd).sum / 2 ≤ 0 + c))
      = (fun c => decide (((sortPairs P).map Prod.snd).sum / 2 ≤ c)) := by
    funext c
    rw [zero_add]
  rw [hpred] at hfc
  have hmem : ((sortPairs P).map Prod.snd).sum ∈ cumsum ((sortPairs P).map Prod.snd) :=
    sum_mem_cumsum _ (by simp [List.map_eq_nil_iff, hsne])
  have hidx : List.findIdx (fun c => decide (((sortPairs P).map Prod.snd).sum / 2 ≤ c))
      (cumsum ((sortPairs P).map Prod.snd)) < (cumsum ((sortPairs P).map Prod.snd)).length :=
    List.findIdx_lt_length.mpr
      ⟨_, hmem, decide_eq_true (half_le_self (le_of_lt hpos2))⟩
  rw [cumsum_length, List.length_map] at hidx
  have hmin : min (List.findIdx (fun c => decide (((sortPairs P).map Prod.snd).sum / 2 ≤ c))
      (cumsum ((sortPairs P).map Prod.snd))) ((sortPairs P).length - 1)
      = List.findIdx (fun c => decide (((sortPairs P).map Prod.snd).sum / 2 ≤ c))
        (cumsum ((sortPairs P).map Prod.snd)) := by
    omega
  rw [hfc, hmin]

/-- C2: evaluating the program at a group with values 1 and 5 each at
area-weight 1: the first-crossing weighted median 1 (the smaller value:
cumulative weight 1 already reaches half of total 2) is computed, but it
lands in `cs_ish_median_y`; the output `cs_ish_median` column is null. -/
theorem C2_median_column_nulled_by_merge_collision :
    aggregateRows [⟨7, 9⟩] [⟨7, some 1, 1, 9⟩, ⟨7, some 5, 1, 9⟩] ["median"]
      = [⟨7, [("cs_ish_median_x", none), ("cs_ish_median_y", some 1),
          ("cs_ish_median", none)]⟩] := by
  have h : medianAgg 7 [⟨7, some 1, 1, 9⟩, ⟨7, some 5, 1, 9⟩] = some 1 := by
    rw [medianAgg_first_value_reaching_half [⟨7, some 1, 1, 9⟩, ⟨7, some 5, 1, 9⟩] 7
      (by decide)
      (by show (0:ℚ) < (List.map Prod.snd [((1:ℚ), (1:ℚ)), ((5:ℚ), (1:ℚ))]).sum; norm_num)]
    show firstCrossing ((List.map Prod.snd [((1:ℚ), (1:ℚ)), ((5:ℚ), (1:ℚ))]).sum / 2) 0
      [((1:ℚ), (1:ℚ)), ((5:ℚ), (1:ℚ))] = some 1
    norm_num [firstCrossing]
  calc aggregateRows [⟨7, 9⟩] [⟨7, some 1, 1, 9⟩, ⟨7, some 5, 1, 9⟩] ["median"]
      = [⟨7, [("cs_ish_median_x", none),
          ("cs_ish_median_y", medianAgg 7 [⟨7, some 1, 1, 9⟩, ⟨7, some 5, 1, 9⟩]),
          ("cs_ish_median", none)]⟩] := rfl
    _ = [⟨7, [("cs_ish_median_x", none), ("cs_ish_median_y", some 1),
          ("cs_ish_median", none)]⟩] := by rw [h]

/-- Appending a layer under a different name does not change a lookup. -/
theorem lookup_append_single_ne (s : Store) (out n : String) (l : Layer)
    (h : n ≠ out) : (s ++ [(out, l)]).lookup n = s.lookup n := by
  induction s with
  | nil =>
    simp [List.lookup, beq_eq_false_iff_ne.mpr h]
  | cons e s ih =>
    cases e with
    | mk k v =>
      by_cases hk : (n == k) = true
      · simp [List.lookup_cons, hk]
      · rw [Bool.not_eq_true] at hk
        simp [List.lookup_cons, hk, ih]

/-- Dropping the entries of one name does not change lookups of others. -/
theorem lookup_filter_out_ne (s : Store) (out n : String) (h : n ≠ out) :
    (s.filter (fun e => e.1 != out)).lookup n = s.lookup n := by
  induction s with
  | nil => rfl
  | cons e s ih =>
    cases e with
    | mk k v =>
      by_cases hko : k = out
      · subst hko
        have hnk : (n == k) = false := beq_eq_false_iff_ne.mpr h
        simp [List.filter_cons, List.lookup_cons, hnk, ih]
      · have hkeep : (k != out) = true := by
          simp [bne_iff_ne, hko]
        by_cases hk : (n == k) = true
        · simp [List.filter_cons, hkeep, List.lookup_cons, hk]
        · rw [Bool.not_eq_true] at hk
          simp [List.filter_cons, hkeep, List.lookup_cons, hk, ih]

/-- The safe write only touches the written layer name. -/
theorem lookup_safeWriteLayer_ne (s : Store) (out n : String) (l : Layer)
    (h : n ≠ out) : (safeWriteLayer s out l).lookup n = s.lookup n := by
  unfold safeWriteLayer
  by_cases hc : ((s.map Prod.fst).contains out) = true
  · rw [if_pos hc, lookup_append_single_ne _ _ _ _ h, lookup_filter_out_ne _ _ _ h]
  · rw [if_neg hc, lookup_append_single_ne _ _ _ _ h]

/-- A request with an unsupported name makes the validation scan find it. -/
theorem find?_unsupported_isSome (aggs : List String) (a : String)
    (ha : a ∈ aggs) (hbad : a ∉ SUPPORTED_AGGS) :
    (aggs.find? (fun x => !(SUPPORTED_AGGS.contains x))).isSome = true := by
  cases h : aggs.find? (fun x => !(SUPPORTED_AGGS.contains x)) with
  | some b => rfl
  | none =>
    rw [List.find?_eq_none] at h
    have hc : SUPPORTED_AGGS.contains a = false := by
      cases hc2 : SUPPORTED_AGGS.contains a
      · rfl
      · exact absurd (List.mem_of_elem_eq_true hc2) hbad
    exact absurd (by rw [hc]; rfl) (h a ha)

/-- A fully supported request makes the validation scan find nothing. -/
theorem find?_supported_none (aggs : List String)
    (hval : ∀ a ∈ aggs, a ∈ SUPPORTED_AGGS) :
    aggs.find? (fun x => !(SUPPORTED_AGGS.contains x)) = none := by
  rw [List.find?_eq_none]
  intro x hx
  have hcx : SUPPORTED_AGGS.contains x = true := List.elem_eq_true_of_mem (hval x hx)
  simp only [hcx]
  simp

/-- C4 counterexample: on a concrete valid run the aggregation itself
changes the output store and performs a write, so it is not free of side
effects with persistence left to the caller. -/
theorem C4_counterexample :
    (runAggregate [("regiao_completa", Layer.sourceL [⟨10, some 2⟩])] "regiao_completa"
      [⟨1, 2⟩] (fun _ _ => []) ["mean"] "agg_mun").store
      ≠ [("regiao_completa", Layer.sourceL [⟨10, some 2⟩])]
    ∧ Event.writeLayer "agg_mun" ∈ (runAggregate [("regiao_completa",
        Layer.sourceL [⟨10, some 2⟩])] "regiao_completa"
      [⟨1, 2⟩] (fun _ _ => []) ["mean"] "agg_mun").events := by
  decide

/-- C4 (amended): a valid run computes the aggregate rows as a function of
its inputs and itself persists them as the output layer; every other layer
of the store is left unchanged. -/
theorem C4_run_persists_result_itself (store : Store) (inName outName : String)
    (pres : List PresUnit)
    (overlay : List SourceUnit → List PresUnit → List InterRecord)
    (aggs : List String) (sus : List SourceUnit)
    (hin : store.lookup inName = some (Layer.sourceL sus))
    (hval : ∀ a ∈ normalizeAggs aggs, a ∈ SUPPORTED_AGGS) :
    (runAggregate store inName pres overlay aggs outName).error = none
    ∧ (runAggregate store inName pres overlay aggs outName).store
      = safeWriteLayer store outName
          (Layer.resultL (aggregateRows pres (overlay sus pres) (normalizeAggs aggs)))
    ∧ ∀ n, n ≠ outName →
        ((runAggregate store inName pres overlay aggs outName).store).lookup n
          = store.lookup n := by
  have hfind := find?_supported_none (normalizeAggs aggs) hval
  unfold runAggregate
  dsimp only
  rw [hfind, hin]
  refine ⟨rfl, rfl, ?_⟩
  intro n hn
  show (safeWriteLayer store outName
    (Layer.resultL (aggregateRows pres (overlay sus pres) (normalizeAggs aggs)))).lookup n
    = store.lookup n
  exact lookup_safeWriteLayer_ne store outName n _ hn

/-- C4 witness: concrete valid run: no error, the non-output layer is
untouched, and the output layer holds the computed rows. -/
theorem C4_witness :
    (runAggregate [("regiao_completa", Layer.sourceL [⟨10, some 2⟩]),
        ("outro", Layer.resultL [])] "regiao_completa"
      [⟨1, 2⟩] (fun _ _ => []) ["mean"] "agg_es").error = none
    ∧ ((runAggregate [("regiao_completa", Layer.sourceL [⟨10, some 2⟩]),
        ("outro", Layer.resultL [])] "regiao_completa"
      [⟨1, 2⟩] (fun _ _ => []) ["mean"] "agg_es").store).lookup "outro"
      = some (Layer.resultL []) := by
  obtain ⟨h1, h2, h3⟩ := C4_run_persists_result_itself
    [("regiao_completa", Layer.sourceL [⟨10, some 2⟩]), ("outro", Layer.resultL [])]
    "regiao_completa" "agg_es" [⟨1, 2⟩] (fun _ _ => []) ["mean"] [⟨10, some 2⟩]
    rfl (by decide)
  refine ⟨h1, ?_⟩
  rw [h3 "outro" (by decide)]
  rfl

/-- C8 counterexample: the request `["all", "bogus"]` contains the
unsupported name `bogus`, yet the run succeeds and writes the output layer,
because the presence of `all` replaces the whole request before validation. -/
theorem C8_counterexample :
    (runAggregate [("regiao_completa", Layer.sourceL [⟨10, some 2⟩])] "regiao_completa"
      [⟨1, 2⟩] (fun _ _ => []) ["all", "bogus"] "agg_mun").error = none
    ∧ Event.writeLayer "agg_mun" ∈ (runAggregate [("regiao_completa",
        Layer.sourceL [⟨10, some 2⟩])] "regiao_completa"
      [⟨1, 2⟩] (fun _ _ => []) ["all", "bogus"] "agg_mun").events := by
  decide

/-- C8 (amended): when the sentinel `all` is absent, a request containing a
name outside the four supported ones fails with the unsupported-aggregation
error, leaves the store unchanged and writes no layer. -/
theorem C8_unknown_name_errors_without_output (store : Store)
    (inName outName : String) (pres : List PresUnit)
    (overlay : List SourceUnit → List PresUnit → List InterRecord)
    (aggs : List String) (a : String)
    (hnall : "all" ∉ aggs) (ha : a ∈ aggs) (hbad : a ∉ SUPPORTED_AGGS) :
    (runAggregate store inName pres overlay aggs outName).error ≠ none
    ∧ (runAggregate store inName pres overlay aggs outName).store = store
    ∧ ∀ n, Event.writeLayer n ∉ (runAggregate store inName pres overlay aggs outName).events := by
  have hnorm : normalizeAggs aggs = aggs := by
    unfold normalizeAggs
    rw [if_neg hnall]
  obtain ⟨b, hb⟩ := Option.isSome_iff_exists.mp (find?_unsupported_isSome aggs a ha hbad)
  unfold runAggregate
  dsimp only
  rw [hnorm, hb]
  refine ⟨?_, rfl, ?_⟩
  · show some ("Unsupported aggregation " ++ b) ≠ none
    simp
  · intro n
    show Event.writeLayer n ∉ ([] : List Event)
    simp

/-- C8 witness: requesting `["median", "bogus"]` errors, leaves the store
as it was and writes nothing. -/
theorem C8_witness :
    (runAggregate [("entrada", Layer.sourceL [⟨11, some 1⟩])] "entrada" [⟨2, 3⟩]
      (fun _ _ => []) ["median", "bogus"] "agg_x").error ≠ none
    ∧ (runAggregate [("entrada", Layer.sourceL [⟨11, some 1⟩])] "entrada" [⟨2, 3⟩]
      (fun _ _ => []) ["median", "bogus"] "agg_x").store
      = [("entrada", Layer.sourceL [⟨11, some 1⟩])]
    ∧ Event.writeLayer "agg_x" ∉ (runAggregate [("entrada", Layer.sourceL [⟨11, some 1⟩])]
      "entrada" [⟨2, 3⟩] (fun _ _ => []) ["median", "bogus"] "agg_x").events := by
  obtain ⟨h1, h2, h3⟩ := C8_unknown_name_errors_without_output
    [("entrada", Layer.sourceL [⟨11, some 1⟩])] "entrada" "agg_x" [⟨2, 3⟩]
    (fun _ _ => []) ["median", "bogus"] "bogus" (by decide) (by decide) (by decide)
  exact ⟨h1, h2, h3 "agg_x"⟩

/-- C10 counterexample: invoked with the unsupported name `nada` next to
`all`, no error is raised at all: the input layer is read and the output
layer is written. -/
theorem C10_counterexample :
    (runAggregate [("camada_base", Layer.sourceL [⟨12, some 3⟩]), ("agg_rj", Layer.resultL [])]
      "camada_base" [⟨5, 1⟩] (fun _ _ => []) ["all", "nada"] "agg_rj").error = none
    ∧ Event.readLayer "camada_base" ∈ (runAggregate [("camada_base",
        Layer.sourceL [⟨12, some 3⟩]), ("agg_rj", Layer.resultL [])]
      "camada_base" [⟨5, 1⟩] (fun _ _ => []) ["all", "nada"] "agg_rj").events
    ∧ (runAggregate [("camada_base", Layer.sourceL [⟨12, some 3⟩]), ("agg_rj", Layer.resultL [])]
      "camada_base" [⟨5, 1⟩] (fun _ _ => []) ["all", "nada"] "agg_rj").store
      ≠ [("camada_base", Layer.sourceL [⟨12, some 3⟩]), ("agg_rj", Layer.resultL [])] := by
  decide

/-- C10 (amended): whenever validation fails — the request still contains
an unsupported name after sentinel normalization — the error is raised
before any layer read or write, and the output store is unchanged. -/
theorem C10_validation_failure_precedes_reads (store : Store)
    (inName outName : String) (pres : List PresUnit)
    (overlay : List SourceUnit → List PresUnit → List InterRecord)
    (aggs : List String) (b : String)
    (hb : b ∈ normalizeAggs aggs) (hbad : b ∉ SUPPORTED_AGGS) :
    (runAggregate store inName pres overlay aggs outName).events = []
    ∧ (runAggregate store inName pres overlay aggs outName).store = store
    ∧ (runAggregate store inName pres overlay aggs outName).error ≠ none := by
  obtain ⟨c, hc⟩ := Option.isSome_iff_exists.mp
    (find?_unsupported_isSome (normalizeAggs aggs) b hb hbad)
  unfold runAggregate
  dsimp only
  rw [hc]
  refine ⟨rfl, rfl, ?_⟩
  show some ("Unsupported aggregation " ++ c) ≠ none
  simp

/-- C10 witness: requesting `["min", "nope"]` raises before any read or
write, leaving the store untouched. -/
theorem C10_witness :
    (runAggregate [("base2", Layer.sourceL [])] "base2" [] (fun _ _ => [])
      ["min", "nope"] "agg_y").events = []
    ∧ (runAggregate [("base2", Layer.sourceL [])] "base2" [] (fun _ _ => [])
      ["min", "nope"] "agg_y").store = [("base2", Layer.sourceL [])]
    ∧ (runAggregate [("base2", Layer.sourceL [])] "base2" [] (fun _ _ => [])
      ["min", "nope"] "agg_y").error ≠ none :=
  C10_validation_failure_precedes_reads [("base2", Layer.sourceL [])] "base2" "agg_y"
    [] (fun _ _ => []) ["min", "nope"] "nope" (by decide) (by decide)
